import Mathlib

/-!
Verification development for the address-validation service
(`src/utils/addressParser.js`, `src/services/addressValidationService.js`).

The JavaScript source is shallowly embedded: strings are Lean `String`s
manipulated through their `List Char` data, JS `null`/`undefined` string
values are `Option String` (`none`), and JS string truthiness (`!s`) is
"`none` or the empty string".  Regular expressions used by the source are
transcribed as explicit, executable scanners over character lists with the
same leftmost-match semantics.  Case conversion models the ASCII fragment
of JS `toLowerCase`/`toUpperCase` (the only fragment the address domain
exercises).

`src/utils/constants.js` is not part of the available sources; the
reference tables it exports (`US_STATES`, `STREET_TYPES`, `DIRECTIONS`,
`UNIT_TYPES`, `VALIDATION_STATUS`) are modelled from the specification,
the README and the state map appearing in `src/services/geocodingService.js`.
-/

/-- ASCII lowercase conversion table: uppercase letter to lowercase letter. -/
def lowerMap : List (Char × Char) :=
  [('A','a'),('B','b'),('C','c'),('D','d'),('E','e'),('F','f'),('G','g'),
   ('H','h'),('I','i'),('J','j'),('K','k'),('L','l'),('M','m'),('N','n'),
   ('O','o'),('P','p'),('Q','q'),('R','r'),('S','s'),('T','t'),('U','u'),
   ('V','v'),('W','w'),('X','x'),('Y','y'),('Z','z')]

/-- ASCII uppercase conversion table: lowercase letter to uppercase letter. -/
def upperMap : List (Char × Char) :=
  [('a','A'),('b','B'),('c','C'),('d','D'),('e','E'),('f','F'),('g','G'),
   ('h','H'),('i','I'),('j','J'),('k','K'),('l','L'),('m','M'),('n','N'),
   ('o','O'),('p','P'),('q','Q'),('r','R'),('s','S'),('t','T'),('u','U'),
   ('v','V'),('w','W'),('x','X'),('y','Y'),('z','Z')]

/-- Association-list lookup with decidable character equality. -/
def charLookup : List (Char × Char) → Char → Option Char
  | [], _ => none
  | (k, v) :: rest, c => if c = k then some v else charLookup rest c

/-- JS `toLowerCase` restricted to ASCII (the fragment the source exercises). -/
def jsToLower (c : Char) : Char := (charLookup lowerMap c).getD c

/-- JS `toUpperCase` restricted to ASCII. -/
def jsToUpper (c : Char) : Char := (charLookup upperMap c).getD c

/-- JS `\s` on the characters the source can meet: ASCII whitespace. -/
def isWsChar (c : Char) : Bool := c = ' ' ∨ c = '\t' ∨ c = '\n' ∨ c = '\r'

/-- ASCII digit. -/
def isDigitChar (c : Char) : Bool := '0' ≤ c ∧ c ≤ '9'

/-- ASCII letter (what `[A-Z]` with the `i` flag matches). -/
def isAsciiLetter (c : Char) : Bool :=
  ('a' ≤ c ∧ c ≤ 'z') ∨ ('A' ≤ c ∧ c ≤ 'Z')

/-- JS regex word character `\w`: letter, digit or underscore. -/
def isWordChar (c : Char) : Bool := isAsciiLetter c ∨ isDigitChar c ∨ c = '_'

/-- Lowercase every character (JS `str.toLowerCase()` on ASCII). -/
def lowerStr (l : List Char) : List Char := l.map jsToLower

/-- Uppercase every character (JS `str.toUpperCase()` on ASCII). -/
def upperStr (l : List Char) : List Char := l.map jsToUpper

/-- Repackage a character list as a string. -/
def strOf (l : List Char) : String := ⟨l⟩

/-- JS `String.prototype.trim`: drop whitespace from both ends. -/
def jsTrim (l : List Char) : List Char :=
  ((l.dropWhile isWsChar).reverse.dropWhile isWsChar).reverse

/-- JS `str.replace(/\.$/, '')`: remove one trailing period. -/
def stripTrailingDot (l : List Char) : List Char :=
  match l.reverse with
  | c :: rest => if c = '.' then rest.reverse else l
  | [] => l

/-- JS `word.charAt(0).toUpperCase() + word.slice(1).toLowerCase()`. -/
def titleCaseL : List Char → List Char
  | [] => []
  | c :: cs => jsToUpper c :: cs.map jsToLower

/-- Association-list lookup in a string-to-string reference table. -/
def lookupTab : List (String × String) → String → Option String
  | [], _ => none
  | (k, v) :: rest, key => if key = k then some v else lookupTab rest key

/-- Modelled from the spec: the `DIRECTIONS` table of `constants.js`
(missing from the sources) mapping directional abbreviations to their
canonical expansions (spec 4.2: N/S/E/W/NE/NW/SE/SW). -/
def DIRECTIONS : List (String × String) :=
  [("n", "North"), ("s", "South"), ("e", "East"), ("w", "West"),
   ("ne", "Northeast"), ("nw", "Northwest"), ("se", "Southeast"),
   ("sw", "Southwest")]

/-- Modelled from the spec: the `STREET_TYPES` table of `constants.js`
(missing from the sources) mapping street-type abbreviations to their
canonical full forms (spec 4.2 and README: St→Street, Ave→Avenue, ...). -/
def STREET_TYPES : List (String × String) :=
  [("st", "Street"), ("ave", "Avenue"), ("blvd", "Boulevard"),
   ("dr", "Drive"), ("rd", "Road"), ("ln", "Lane"), ("ct", "Court"),
   ("pl", "Place"), ("cir", "Circle"), ("hwy", "Highway"),
   ("pkwy", "Parkway"), ("sq", "Square"), ("ter", "Terrace")]

/-- Modelled from the spec: the `UNIT_TYPES` table of `constants.js`
(missing from the sources) normalizing unit designators (spec 4.1; the
repo's tests pin `apt` to `Apt` and `suite` to `Suite`). -/
def UNIT_TYPES : List (String × String) :=
  [("apt", "Apt"), ("apartment", "Apartment"), ("suite", "Suite"),
   ("ste", "Suite"), ("unit", "Unit"), ("floor", "Floor"), ("fl", "Floor"),
   ("room", "Room"), ("rm", "Room")]

/-- Modelled from the spec: the `US_STATES` table of `constants.js`
(missing from the sources), abbreviation → full name, mirroring the state
map in `src/services/geocodingService.js` (alphabetical by name, DC last). -/
def US_STATES : List (String × String) :=
  [("AL", "Alabama"), ("AK", "Alaska"), ("AZ", "Arizona"),
   ("AR", "Arkansas"), ("CA", "California"), ("CO", "Colorado"),
   ("CT", "Connecticut"), ("DE", "Delaware"), ("FL", "Florida"),
   ("GA", "Georgia"), ("HI", "Hawaii"), ("ID", "Idaho"),
   ("IL", "Illinois"), ("IN", "Indiana"), ("IA", "Iowa"),
   ("KS", "Kansas"), ("KY", "Kentucky"), ("LA", "Louisiana"),
   ("ME", "Maine"), ("MD", "Maryland"), ("MA", "Massachusetts"),
   ("MI", "Michigan"), ("MN", "Minnesota"), ("MS", "Mississippi"),
   ("MO", "Missouri"), ("MT", "Montana"), ("NE", "Nebraska"),
   ("NV", "Nevada"), ("NH", "New Hampshire"), ("NJ", "New Jersey"),
   ("NM", "New Mexico"), ("NY", "New York"), ("NC", "North Carolina"),
   ("ND", "North Dakota"), ("OH", "Ohio"), ("OK", "Oklahoma"),
   ("OR", "Oregon"), ("PA", "Pennsylvania"), ("RI", "Rhode Island"),
   ("SC", "South Carolina"), ("SD", "South Dakota"), ("TN", "Tennessee"),
   ("TX", "Texas"), ("UT", "Utah"), ("VT", "Vermont"),
   ("VA", "Virginia"), ("WA", "Washington"), ("WV", "West Virginia"),
   ("WI", "Wisconsin"), ("WY", "Wyoming"), ("DC", "District of Columbia")]

/-- Modelled from the spec: `VALIDATION_STATUS` of `constants.js` (missing
from the sources); the four terminal statuses of spec section 4.3. -/
def VALIDATION_STATUS_VALID : String := "valid"

/-- Modelled from the spec: the `corrected` status constant. -/
def VALIDATION_STATUS_CORRECTED : String := "corrected"

/-- Modelled from the spec: the `unverifiable` status constant. -/
def VALIDATION_STATUS_UNVERIFIABLE : String := "unverifiable"

/-- Modelled from the spec: the `invalid` status constant. -/
def VALIDATION_STATUS_INVALID : String := "invalid"

/-- JS whitespace splitting, accumulator form: `normalized.split(/\s+/)`
on a string without leading or trailing whitespace yields exactly the
maximal whitespace-free runs. -/
def rawTokensAux (cur : List Char) : List Char → List (List Char)
  | [] => if cur = [] then [] else [cur.reverse]
  | c :: cs =>
    if isWsChar c then
      if cur = [] then rawTokensAux [] cs else cur.reverse :: rawTokensAux [] cs
    else rawTokensAux (c :: cur) cs

/-- The whitespace-separated tokens of a character list. -/
def rawTokens (l : List Char) : List (List Char) := rawTokensAux [] l

/-- JS `join(' ')` at the character level. -/
def joinWsTokens : List (List Char) → List Char
  | [] => []
  | [w] => w
  | w :: ws => w ++ ' ' :: joinWsTokens ws

/-- One token of `normalizeStreetName` (`addressParser.js` lines 123-142):
directional expansion on the first/last word, street-type expansion on the
last/second-to-last word, title-casing otherwise. -/
def normToken (n i : Nat) (w : List Char) : List Char :=
  let lower := strOf (stripTrailingDot (lowerStr w))
  if (i = 0 ∨ i = n - 1) ∧ (lookupTab DIRECTIONS lower).isSome then
    ((lookupTab DIRECTIONS lower).getD "").data
  else if (i = n - 1 ∨ i = n - 2) ∧ (lookupTab STREET_TYPES lower).isSome then
    ((lookupTab STREET_TYPES lower).getD "").data
  else titleCaseL w

/-- `words.map((word, index) => ...)` of `normalizeStreetName`, with the
word count `n` fixed and the running index explicit. -/
def normWords (n : Nat) (i : Nat) : List (List Char) → List (List Char)
  | [] => []
  | w :: ws => normToken n i w :: normWords n (i + 1) ws

/-- `normalizeStreetName` (`addressParser.js` lines 116-145).  A falsy
input (null or empty) yields null; otherwise the trimmed input is split on
whitespace (JS `"".split(/\s+/)` gives `[""]`), each word is normalized,
and the words are joined with single spaces. -/
def normalizeStreetName (street : Option String) : Option String :=
  match street with
  | none => none
  | some s =>
    if s = "" then none
    else
      let t := jsTrim s.data
      let words := if t = [] then [[]] else rawTokens t
      some (strOf (joinWsTokens (normWords words.length 0 words)))

/-- `normalizeUnitType` (`addressParser.js` lines 150-153). -/
def normalizeUnitType (type : String) : String :=
  (lookupTab UNIT_TYPES (strOf (stripTrailingDot (lowerStr type.data)))).getD "Unit"

/-- Prefix test after lowercasing is not needed here: plain prefix test. -/
def takeEq (pat l : List Char) : Bool := l.take pat.length == pat

/-- Whether a (possibly empty) remainder starts with a word character —
the negation of a JS `\b` test at the seam before that remainder. -/
def headIsWord : List Char → Bool
  | d :: _ => isWordChar d
  | [] => false

/-- JS `String.prototype.includes` at the character level. -/
def containsSub (pat : List Char) : List Char → Bool
  | [] => pat == []
  | c :: cs => takeEq pat (c :: cs) || containsSub pat cs

/-- Leftmost standalone two-letter token: the first match of
`/\b([A-Z]{2})\b/i` (the optional `(?:\s+\d{5})?` tail of the source regex
never changes which match is first).  `prevW` records whether the previous
character is a word character. -/
def findTwoTok (prevW : Bool) : List Char → Option (List Char)
  | c1 :: c2 :: rest =>
    if ¬prevW ∧ isAsciiLetter c1 ∧ isAsciiLetter c2 ∧ ¬ headIsWord rest then
      some [c1, c2]
    else findTwoTok (isWordChar c1) (c2 :: rest)
  | _ => none

/-- The full-state-name fallback loop of `extractState`
(`addressParser.js` lines 169-174): first table entry whose lowercased
name occurs in the lowercased address. -/
def scanStateNames : List (String × String) → List Char → Option (String × String)
  | [], _ => none
  | (ab, nm) :: rest, low =>
    if containsSub (lowerStr nm.data) low then some (ab, nm)
    else scanStateNames rest low

/-- The full-name phase of `extractState`. -/
def extractStateByName (address : String) : Option (String × String) :=
  scanStateNames US_STATES (lowerStr address.data)

/-- `extractState` (`addressParser.js` lines 158-177): the first standalone
2-letter token is uppercased and accepted only if it is a `US_STATES` key;
otherwise the full-name scan runs. -/
def extractState (address : String) : Option (String × String) :=
  match findTwoTok false address.data with
  | some t =>
    let ab := strOf (upperStr t)
    match lookupTab US_STATES ab with
    | some nm => some (ab, nm)
    | none => extractStateByName address
  | none => extractStateByName address

/-- Match of `\d{5}(-\d{4})?\b` starting exactly at `l` (whose head is
already known to be a digit preceded by a word boundary); returns the
match length and text, with the regex backtracking to a plain 5-digit
match when the `+4` extension is present but not followed by a boundary. -/
def zipAt (l : List Char) : Option (Nat × String) :=
  let d5 := l.take 5
  if d5.length = 5 ∧ d5.all isDigitChar then
    match l.drop 5 with
    | '-' :: r =>
      let d4 := r.take 4
      if d4.length = 4 ∧ d4.all isDigitChar ∧ ¬ headIsWord (r.drop 4) then
        some (10, strOf (d5 ++ '-' :: d4))
      else some (5, strOf d5)
    | c :: _ => if isWordChar c then none else some (5, strOf d5)
    | [] => some (5, strOf d5)
  else none

/-- First match of `/\b(\d{5})(?:-(\d{4}))?\b/` (`addressParser.js`
line 29), returning the text stored in `result.zipCode`. -/
def findZipStr (prevW : Bool) : List Char → Option String
  | [] => none
  | c :: cs =>
    if ¬prevW ∧ isDigitChar c then
      match zipAt (c :: cs) with
      | some (_, z) => some z
      | none => findZipStr (isWordChar c) cs
    else findZipStr (isWordChar c) cs

/-- `city.replace(/\b\d{5}(-\d{4})?\b/, '')` (`addressParser.js`
line 194): excise the first ZIP match. -/
def removeFirstZip (prevW : Bool) (acc : List Char) : List Char → List Char
  | [] => acc.reverse
  | c :: cs =>
    if ¬prevW ∧ isDigitChar c then
      match zipAt (c :: cs) with
      | some (len, _) => acc.reverse ++ (c :: cs).drop len
      | none => removeFirstZip (isWordChar c) (c :: acc) cs
    else removeFirstZip (isWordChar c) (c :: acc) cs

/-- `str.replace(new RegExp('\\b' + pat + '\\b', 'i'), '')` for a pattern
that starts and ends with a letter (state abbreviations and names):
remove the first case-insensitive word-bounded occurrence. -/
def replaceWordCIAux (pat : List Char) (prevW : Bool) (acc : List Char) :
    List Char → List Char
  | [] => acc.reverse
  | c :: cs =>
    if ¬prevW ∧ lowerStr ((c :: cs).take pat.length) = lowerStr pat ∧
        ¬ headIsWord ((c :: cs).drop pat.length) then
      acc.reverse ++ (c :: cs).drop pat.length
    else replaceWordCIAux pat (isWordChar c) (c :: acc) cs

/-- Entry point of the word-bounded case-insensitive first-occurrence
removal. -/
def replaceFirstWordCI (pat : String) (l : List Char) : List Char :=
  replaceWordCIAux pat.data false [] l

/-- The state-stripping loop of `extractCity` (`addressParser.js` lines
197-200): for every table entry remove the abbreviation, then the name. -/
def removeStatesLoop : List (String × String) → List Char → List Char
  | [], l => l
  | (ab, nm) :: rest, l =>
    removeStatesLoop rest (replaceFirstWordCI nm (replaceFirstWordCI ab l))

/-- `cleanCityName` (`addressParser.js` lines 208-220). -/
def cleanCityName (city : String) : Option String :=
  if city = "" then none
  else
    let isJunk := fun c => c = ',' ∨ isWsChar c
    let t := jsTrim city.data
    let t2 := (t.reverse.dropWhile isJunk).reverse
    let t3 := t2.dropWhile isJunk
    if t3 = [] then none
    else some (strOf (joinWsTokens ((rawTokens t3).map titleCaseL)))

/-- `extractCity` (`addressParser.js` lines 182-203). -/
def extractCity (part : String) (knownState : Option String) : Option String :=
  if part = "" then none
  else
    let c1 := match knownState with
      | some st => replaceFirstWordCI st part.data
      | none => part.data
    let c2 := removeFirstZip false [] c1
    let c3 := removeStatesLoop US_STATES c2
    cleanCityName (strOf c3)

/-- The unit designators of the first unit pattern of `parseStreetAddress`
(`addressParser.js` line 85), in alternation order. -/
def UNIT_DESIGNATORS : List String :=
  ["apt", "apartment", "suite", "ste", "unit", "#", "floor", "fl", "room",
   "rm"]

/-- The continuation `\.?\s*#?\s*(\w+)\s*$` of the first unit pattern
after the designator; returns the captured identifier.  Each optional
piece is taken greedily; no other backtracking can succeed because a
period, whitespace and `#` are not word characters. -/
def unitCont (r0 : List Char) : Option (List Char) :=
  let r1 := match r0 with | '.' :: t => t | _ => r0
  let r2 := r1.dropWhile isWsChar
  let r3 := match r2 with | '#' :: t => t | _ => r2
  let r4 := r3.dropWhile isWsChar
  let w := r4.takeWhile isWordChar
  if w ≠ [] ∧ (r4.drop w.length).all isWsChar then some w else none

/-- Try one unit designator case-insensitively at the current position. -/
def matchDesigAt (d : String) (l : List Char) : Option (List Char) :=
  if lowerStr (l.take d.data.length) = d.data then unitCont (l.drop d.data.length)
  else none

/-- Try the alternation of unit designators at the current position.  The
`\b` before the alternation demands a preceding word character for `#`
(a non-word character) and a preceding non-word character otherwise. -/
def tryDesigs : List String → Bool → List Char → Option (String × List Char)
  | [], _, _ => none
  | d :: ds, prevW, l =>
    let boundaryOK := if d = "#" then prevW else ¬prevW
    match (if boundaryOK then matchDesigAt d l else none) with
    | some w => some (d, w)
    | none => tryDesigs ds prevW l

/-- Leftmost match of the first unit pattern
`/\b(apt|apartment|suite|ste|unit|#|floor|fl|room|rm)\.?\s*#?\s*(\w+)\s*$/i`:
returns the designator, the captured identifier and the text before the
match (the match itself extends to the end of the string). -/
def findUnit1 (prevW : Bool) (acc : List Char) :
    List Char → Option (String × List Char × List Char)
  | [] => none
  | c :: cs =>
    match tryDesigs UNIT_DESIGNATORS prevW (c :: cs) with
    | some (d, w) => some (d, w, acc.reverse)
    | none => findUnit1 (isWordChar c) (c :: acc) cs

/-- Leftmost match of the second unit pattern `/\s+#(\w+)\s*$/i`: returns
the captured identifier and the text before the match. -/
def findUnit2 (acc : List Char) : List Char → Option (List Char × List Char)
  | [] => none
  | c :: cs =>
    if isWsChar c then
      match (c :: cs).dropWhile isWsChar with
      | '#' :: r =>
        let w := r.takeWhile isWordChar
        if w ≠ [] ∧ (r.drop w.length).all isWsChar then some (w, acc.reverse)
        else findUnit2 (c :: acc) cs
      | _ => findUnit2 (c :: acc) cs
    else findUnit2 (c :: acc) cs

/-- Leading street-number match `/^(\d+[-\d]*[a-zA-Z]?)\s+/`
(`addressParser.js` line 101): returns the captured number and the text
after the matched whitespace. -/
def numberMatch (w : List Char) : Option (List Char × List Char) :=
  let d1 := w.takeWhile isDigitChar
  if d1 = [] then none
  else
    let r1 := w.drop d1.length
    let d2 := r1.takeWhile (fun c => c = '-' ∨ isDigitChar c)
    let r2 := r1.drop d2.length
    match r2 with
    | c :: rest =>
      if isAsciiLetter c then
        match rest with
        | c2 :: _ =>
          if isWsChar c2 then some (d1 ++ d2 ++ [c], rest.dropWhile isWsChar)
          else none
        | [] => none
      else if isWsChar c then some (d1 ++ d2, (c :: rest).dropWhile isWsChar)
      else none
    | [] => none

/-- The `{ number, street, unit }` result of `parseStreetAddress`. -/
structure StreetResult where
  number : Option String
  street : Option String
  unit : Option String
deriving Repr, DecidableEq

/-- `parseStreetAddress` (`addressParser.js` lines 72-111). -/
def parseStreetAddress (streetPart : String) : StreetResult :=
  if streetPart = "" then ⟨none, none, none⟩
  else
    let w0 := streetPart.data
    let unitStep : Option String × List Char :=
      match findUnit1 false [] w0 with
      | some (d, num, before) =>
        (some (strOf (jsTrim ((normalizeUnitType d).data ++ ' ' :: num))),
         jsTrim before)
      | none =>
        match findUnit2 [] w0 with
        | some (num, before) =>
          (some (strOf (jsTrim
             ((normalizeUnitType (strOf num)).data ++ ' ' :: num))),
           jsTrim before)
        | none => (none, w0)
    let numberStep : Option String × List Char :=
      match numberMatch unitStep.2 with
      | some (num, rest) => (some (strOf num), rest)
      | none => (none, unitStep.2)
    { number := numberStep.1,
      street := normalizeStreetName (some (strOf numberStep.2)),
      unit := unitStep.1 }

/-- JS `String.prototype.split(',')` at the character level (an empty
input yields one empty piece, like JS). -/
def splitComma : List Char → List (List Char)
  | [] => [[]]
  | c :: cs =>
    if c = ',' then [] :: splitComma cs
    else
      match splitComma cs with
      | [] => [[c]]
      | t :: ts => (c :: t) :: ts

/-- `replace(/\s+/g, ' ')`: collapse each whitespace run to one space. -/
def collapseAux (afterWs : Bool) : List Char → List Char
  | [] => []
  | c :: cs =>
    if isWsChar c then
      if afterWs then collapseAux true cs else ' ' :: collapseAux true cs
    else c :: collapseAux false cs

/-- `replace(/,\s*/g, ', ')`: normalize comma spacing. -/
def rcsAux (skipWs : Bool) : List Char → List Char
  | [] => []
  | c :: cs =>
    if skipWs ∧ isWsChar c then rcsAux true cs
    else if c = ',' then ',' :: ' ' :: rcsAux true cs
    else c :: rcsAux false cs

/-- The `ParsedAddress` record built by `parseAddress`. -/
structure ParsedAddress where
  streetNumber : Option String
  street : Option String
  unit : Option String
  city : Option String
  state : Option String
  zipCode : Option String
  raw : String
deriving Repr, DecidableEq

/-- The body of `parseAddress` after its null guard (`addressParser.js`
lines 12-66). -/
def parseAddressCore (s : String) : ParsedAddress :=
  let normalized := rcsAux false (collapseAux false (jsTrim s.data))
  let zip := findZipStr false normalized
  let st := extractState (strOf normalized)
  let parts := (splitComma normalized).map (fun p => strOf (jsTrim p))
  let sr := parseStreetAddress (parts.getD 0 "")
  let city1 : Option String :=
    if parts.length ≥ 2 then extractCity (parts.getD 1 "") (st.map (·.1))
    else none
  let city : Option String :=
    match city1 with
    | some c => some c
    | none => if parts.length ≥ 3 then cleanCityName (parts.getD 1 "") else none
  { streetNumber := sr.number, street := sr.street, unit := sr.unit,
    city := city, state := st.map (·.1), zipCode := zip, raw := s }

/-- `parseAddress` (`addressParser.js` lines 7-67).  `none` stands for a
null, undefined or non-string input; JS string truthiness makes the empty
string the only string rejected by the guard on line 8. -/
def parseAddress : Option String → Option ParsedAddress
  | none => none
  | some s => if s = "" then none else some (parseAddressCore s)

/-- `isValidZipCode` (`addressParser.js` lines 225-228):
`/^\d{5}(-\d{4})?$/`. -/
def isValidZipCode (zip : Option String) : Bool :=
  match zip with
  | none => false
  | some z =>
    if z = "" then false
    else
      let d := z.data
      if (d.take 5).length = 5 ∧ (d.take 5).all isDigitChar then
        match d.drop 5 with
        | [] => true
        | '-' :: r => r.length = 4 && r.all isDigitChar
        | _ => false
      else false

/-- `isValidState` (`addressParser.js` lines 233-236). -/
def isValidState (state : Option String) : Bool :=
  match state with
  | none => false
  | some st =>
    if st = "" then false
    else (lookupTab US_STATES (strOf (upperStr st.data))).isSome

/-- JS truthiness of a nullable string: neither null nor empty. -/
def jsTruthyS : Option String → Bool
  | none => false
  | some s => s != ""

/-- The `{ latitude, longitude }` pair of the response.  The core logic
never computes on coordinates; they are opaque pass-through values,
modelled as integers. -/
structure Coordinates where
  latitude : Int
  longitude : Int
deriving Repr, DecidableEq

/-- The normalized geocoding result consumed by the service
(`geocodingService.js` `normalizeNominatimResult`).  Coordinates are
opaque pass-through values. -/
structure VerifiedAddress where
  streetNumber : Option String
  street : Option String
  city : Option String
  state : Option String
  zipCode : Option String
  country : String
  latitude : Int
  longitude : Int
  confidence : Int
deriving Repr, DecidableEq

/-- The guarantee `normalizeNominatimResult` gives about every geocoding
result: each `|| null` coalescing makes the optional fields either null
or non-empty, and `country` is always a non-empty string (it defaults to
`"US"`). -/
def VerifiedAddress.wf (v : VerifiedAddress) : Prop :=
  v.streetNumber ≠ some "" ∧ v.street ≠ some "" ∧ v.city ≠ some "" ∧
    v.state ≠ some "" ∧ v.zipCode ≠ some "" ∧ v.country ≠ ""

instance (v : VerifiedAddress) : Decidable v.wf := by
  unfold VerifiedAddress.wf; infer_instance

/-- A field-level `{ field, original, corrected }` discrepancy. -/
structure Correction where
  field : String
  original : Option String
  corrected : String
deriving Repr, DecidableEq

/-- The `{ status, corrections }` pair returned by `determineStatus`. -/
structure ReconcileResult where
  status : String
  corrections : List Correction
deriving Repr, DecidableEq

/-- `normalizeForComparison` (`addressValidationService.js` lines
164-167): lowercase, then strip everything outside `a-z0-9`; falsy input
becomes the empty string. -/
def normalizeForComparison (str : Option String) : String :=
  match str with
  | none => ""
  | some s =>
    if s = "" then ""
    else strOf ((lowerStr s.data).filter
      (fun c => ('a' ≤ c ∧ c ≤ 'z') ∨ isDigitChar c))

/-- `normalizeZip` (`addressValidationService.js` lines 172-175): strip a
trailing `-NNNN` extension; falsy input becomes the empty string. -/
def normalizeZip (zip : Option String) : String :=
  match zip with
  | none => ""
  | some z =>
    if z = "" then ""
    else
      match z.data.reverse with
      | a :: b :: c :: d :: '-' :: rest =>
        if [a, b, c, d].all isDigitChar then strOf rest.reverse else z
      | _ => z

/-- `parsed.state?.toUpperCase()` — optional chaining over uppercase. -/
def optUpper (s : Option String) : Option String :=
  s.map (fun x => strOf (upperStr x.data))

/-- The corrections accumulated by `determineStatus`
(`addressValidationService.js` lines 105-146): one comparison per field in
the fixed order, each guarded by the truthiness of the geocoded value. -/
def determineCorrections (parsed : ParsedAddress) (geocoded : VerifiedAddress) :
    List Correction :=
  (if jsTruthyS geocoded.streetNumber ∧
        parsed.streetNumber ≠ geocoded.streetNumber then
       [⟨"streetNumber", parsed.streetNumber, (geocoded.streetNumber).getD ""⟩]
     else []) ++
    (if jsTruthyS geocoded.street ∧
        normalizeForComparison parsed.street ≠
          normalizeForComparison geocoded.street then
       [⟨"street", parsed.street, (geocoded.street).getD ""⟩]
     else []) ++
    (if jsTruthyS geocoded.city ∧
        normalizeForComparison parsed.city ≠
          normalizeForComparison geocoded.city then
       [⟨"city", parsed.city, (geocoded.city).getD ""⟩]
     else []) ++
    (if jsTruthyS geocoded.state ∧
        optUpper parsed.state ≠ optUpper geocoded.state then
       [⟨"state", parsed.state, (geocoded.state).getD ""⟩]
     else []) ++
  (if jsTruthyS geocoded.zipCode ∧
      normalizeZip parsed.zipCode ≠ normalizeZip geocoded.zipCode then
     [⟨"zipCode", parsed.zipCode, (geocoded.zipCode).getD ""⟩]
   else [])

/-- `determineStatus` (`addressValidationService.js` lines 104-159): the
corrections list followed by the confidence-thresholded status. -/
def determineStatus (parsed : ParsedAddress) (geocoded : VerifiedAddress) :
    ReconcileResult :=
  let corrections := determineCorrections parsed geocoded
  let status :=
    if corrections = [] then VALIDATION_STATUS_VALID
    else if 70 ≤ geocoded.confidence then VALIDATION_STATUS_CORRECTED
    else VALIDATION_STATUS_UNVERIFIABLE
  ⟨status, corrections⟩

/-- `hasMinimumComponents` (`addressValidationService.js` lines 59-62). -/
def hasMinimumComponents (parsed : ParsedAddress) : Bool :=
  jsTruthyS parsed.street || jsTruthyS parsed.city

/-- The `address` record of the response. -/
structure AddressRecord where
  streetNumber : Option String
  street : Option String
  unit : Option String
  city : Option String
  state : Option String
  zipCode : Option String
  formatted : Option String
deriving Repr, DecidableEq

/-- The externally visible `ValidationResult`; `none` in `issues`,
`corrections`, `coordinates` and `confidence` models the key being
absent (`undefined`) in the JSON response. -/
structure ValidationResult where
  status : String
  input : Option String
  address : Option AddressRecord
  issues : Option (List String)
  corrections : Option (List Correction)
  coordinates : Option Coordinates
  confidence : Option Int
deriving Repr, DecidableEq

/-- `formatAddress` (`addressValidationService.js` lines 224-247). -/
def formatAddress (components : VerifiedAddress) (unit : Option String) :
    Option String :=
  let sp :=
    (if jsTruthyS components.streetNumber then [components.streetNumber.getD ""] else []) ++
    (if jsTruthyS components.street then [components.street.getD ""] else []) ++
    (if jsTruthyS unit then [unit.getD ""] else [])
  let parts1 := if sp = [] then [] else [String.intercalate " " sp]
  let l0 := if jsTruthyS components.city then [components.city.getD ""] else []
  let l1 :=
    if jsTruthyS components.state then
      (match l0.reverse with
       | x :: rest => ((x ++ ",") :: rest).reverse
       | [] => []) ++ [components.state.getD ""]
    else l0
  let l2 := if jsTruthyS components.zipCode then l1 ++ [components.zipCode.getD ""] else l1
  let parts := parts1 ++ (if l2 = [] then [] else [String.intercalate " " l2])
  let j := String.intercalate ", " parts
  if j = "" then none else some j

/-- `createResponse` (`addressValidationService.js` lines 180-219). -/
def createResponse (status : String) (parsed : Option ParsedAddress)
    (geocoded : Option VerifiedAddress) (issues : List String)
    (corrections : List Correction) : ValidationResult :=
  let base : ValidationResult :=
    { status := status,
      input := match parsed with
        | some p => if p.raw = "" then none else some p.raw
        | none => none,
      address := none,
      issues := if issues.length > 0 then some issues else none,
      corrections := if corrections.length > 0 then some corrections else none,
      coordinates := none,
      confidence := none }
  match geocoded with
  | some g =>
    { base with
      address := some
        { streetNumber := g.streetNumber, street := g.street,
          unit := match parsed with
            | some p => if jsTruthyS p.unit then p.unit else none
            | none => none,
          city := g.city, state := g.state, zipCode := g.zipCode,
          formatted := formatAddress g
            (match parsed with | some p => p.unit | none => none) },
      coordinates := some ⟨g.latitude, g.longitude⟩,
      confidence := some g.confidence }
  | none =>
    match parsed with
    | some p =>
      if status = VALIDATION_STATUS_UNVERIFIABLE then
        { base with
          address := some
            { streetNumber := p.streetNumber, street := p.street,
              unit := p.unit, city := p.city, state := p.state,
              zipCode := p.zipCode, formatted := none } }
      else base
    | none => base

/-- `handleUnverifiableAddress` (`addressValidationService.js` lines
67-99). -/
def handleUnverifiableAddress (parsed : ParsedAddress) : ValidationResult :=
  let issues :=
    (if ¬ jsTruthyS parsed.streetNumber
     then ["Street number could not be determined"] else []) ++
    (if ¬ jsTruthyS parsed.street
     then ["Street name could not be determined"] else []) ++
    (if ¬ jsTruthyS parsed.city
     then ["City could not be determined"] else []) ++
    (if ¬ jsTruthyS parsed.state then ["State could not be determined"]
     else if ¬ isValidState parsed.state
     then ["Invalid state: " ++ parsed.state.getD ""] else []) ++
    (if ¬ jsTruthyS parsed.zipCode then ["ZIP code could not be determined"]
     else if ¬ isValidZipCode parsed.zipCode
     then ["Invalid ZIP code format: " ++ parsed.zipCode.getD ""] else [])
  let status :=
    if jsTruthyS parsed.street || jsTruthyS parsed.city
    then VALIDATION_STATUS_UNVERIFIABLE
    else VALIDATION_STATUS_INVALID
  createResponse status (some parsed) none issues []

/-- Steps 2-3 of `validateAddress`: the single verified address flowing
into reconciliation — the free-text geocoding result when present,
otherwise the structured-search result (attempted only with minimum
components).  The two external calls are modelled by their returned
values. -/
def selectVerified (parsed : ParsedAddress)
    (geocoded structured : Option VerifiedAddress) : Option VerifiedAddress :=
  match geocoded with
  | some g => some g
  | none => if hasMinimumComponents parsed then structured else none

/-- `validateAddress` (`addressValidationService.js` lines 15-54), with
the two awaited geocoding calls modelled by their results. -/
def validateAddress (addressInput : Option String)
    (geocoded structured : Option VerifiedAddress) : ValidationResult :=
  match parseAddress addressInput with
  | none =>
    createResponse VALIDATION_STATUS_INVALID none none
      ["Could not parse address input"] []
  | some parsed =>
    match selectVerified parsed geocoded structured with
    | none => handleUnverifiableAddress parsed
    | some finalResult =>
      if finalResult.country ≠ "" ∧ finalResult.country ≠ "US" then
        createResponse VALIDATION_STATUS_INVALID (some parsed)
          (some finalResult)
          ["Address is not in the United States. This service only validates US addresses."]
          []
      else
        let r := determineStatus parsed finalResult
        createResponse r.status (some parsed) (some finalResult) []
          r.corrections

/-- Skip an absent verified value, otherwise apply the per-field
comparison — the "skipped if verified value absent" of the spec's field
comparison table. -/
def skipNone (g : Option String) (f : String → List Correction) :
    List Correction :=
  match g with
  | none => []
  | some s => f s

/-- The corrections list exactly as the specification describes it
(refinement reference for the claim about `determineStatus`): fields in
the fixed order streetNumber, street, city, state, zipCode; one
`Correction` per field that differs under the per-field rule — exact
equality for streetNumber, case-insensitive non-alphanumeric-stripped
equality for street and city, case-insensitive equality for state,
ZIP+4-stripped equality for zipCode — and a field skipped whenever the
verified value is absent. -/
def correctionsSpec (p : ParsedAddress) (v : VerifiedAddress) :
    List Correction :=
  skipNone v.streetNumber
    (fun s =>
      if p.streetNumber ≠ some s then [⟨"streetNumber", p.streetNumber, s⟩]
      else []) ++
  skipNone v.street
    (fun s =>
      if normalizeForComparison p.street ≠ normalizeForComparison (some s) then
        [⟨"street", p.street, s⟩]
      else []) ++
  skipNone v.city
    (fun s =>
      if normalizeForComparison p.city ≠ normalizeForComparison (some s) then
        [⟨"city", p.city, s⟩]
      else []) ++
  skipNone v.state
    (fun s =>
      if optUpper p.state ≠ optUpper (some s) then [⟨"state", p.state, s⟩]
      else []) ++
  skipNone v.zipCode
    (fun s =>
      if normalizeZip p.zipCode ≠ normalizeZip (some s) then
        [⟨"zipCode", p.zipCode, s⟩]
      else [])

/-- A verified address with no component fields, US country, confidence
80 — what the geocoder may legitimately return. -/
def vUSEmpty : VerifiedAddress :=
  ⟨none, none, none, none, none, "US", 0, 0, 80⟩

/-- A fully populated verified address used as a sample input. -/
def vFull : VerifiedAddress :=
  ⟨some "123", some "Main Street", some "New York", some "NY", some "10001",
   "US", 40, -73, 95⟩

/-- A fully populated parsed address used as a sample input. -/
def pFull : ParsedAddress :=
  ⟨some "123", some "Main Street", some "Apt 2B", some "New York",
   some "NY", some "10001", "123 Main Street Apt 2B, New York, NY 10001"⟩

/-- A parsed address with no component fields. -/
def pNull : ParsedAddress := ⟨none, none, none, none, none, none, ","⟩

/-- The status field of a response is the status argument, on every path
of `createResponse`. -/
theorem createResponse_status_eq (st : String) (pd : Option ParsedAddress)
    (g : Option VerifiedAddress) (iss : List String) (cor : List Correction) :
    (createResponse st pd g iss cor).status = st := by
  unfold createResponse
  cases g with
  | some g0 => cases pd <;> rfl
  | none =>
    cases pd with
    | some p0 =>
      by_cases h : st = VALIDATION_STATUS_UNVERIFIABLE <;> simp [h]
    | none => rfl

/-- The issues key of a response is present exactly when the issues list
is non-empty, on every path of `createResponse`. -/
theorem createResponse_issues_eq (st : String) (pd : Option ParsedAddress)
    (g : Option VerifiedAddress) (iss : List String) (cor : List Correction) :
    (createResponse st pd g iss cor).issues =
      if iss.length > 0 then some iss else none := by
  unfold createResponse
  cases g with
  | some g0 => cases pd <;> rfl
  | none =>
    cases pd with
    | some p0 =>
      by_cases h : st = VALIDATION_STATUS_UNVERIFIABLE <;> simp [h]
    | none => rfl

/-- The corrections key of a response is present exactly when the
corrections list is non-empty, on every path of `createResponse`. -/
theorem createResponse_corrections_eq (st : String) (pd : Option ParsedAddress)
    (g : Option VerifiedAddress) (iss : List String) (cor : List Correction) :
    (createResponse st pd g iss cor).corrections =
      if cor.length > 0 then some cor else none := by
  unfold createResponse
  cases g with
  | some g0 => cases pd <;> rfl
  | none =>
    cases pd with
    | some p0 =>
      by_cases h : st = VALIDATION_STATUS_UNVERIFIABLE <;> simp [h]
    | none => rfl

/-- C1: for every parsed address and non-null verified address,
`determineStatus` (the reconciler reached only for US results) returns
status `valid` when the per-field comparison yields zero corrections,
`corrected` when it yields at least one correction and the confidence is
at least 70, and `unverifiable` when it yields at least one correction
and the confidence is below 70. -/
theorem determineStatus_status_table (p : ParsedAddress) (v : VerifiedAddress) :
    ((determineStatus p v).corrections = [] →
        (determineStatus p v).status = VALIDATION_STATUS_VALID) ∧
    ((determineStatus p v).corrections ≠ [] → 70 ≤ v.confidence →
        (determineStatus p v).status = VALIDATION_STATUS_CORRECTED) ∧
    ((determineStatus p v).corrections ≠ [] → v.confidence < 70 →
        (determineStatus p v).status = VALIDATION_STATUS_UNVERIFIABLE) := by
  have hc : (determineStatus p v).corrections = determineCorrections p v := rfl
  have hs : (determineStatus p v).status =
      (if determineCorrections p v = [] then VALIDATION_STATUS_VALID
       else if 70 ≤ v.confidence then VALIDATION_STATUS_CORRECTED
       else VALIDATION_STATUS_UNVERIFIABLE) := rfl
  refine ⟨fun h => ?_, fun h h70 => ?_, fun h hlt => ?_⟩ <;> rw [hc] at h
  · rw [hs, if_pos h]
  · rw [hs, if_neg h, if_pos h70]
  · rw [hs, if_neg h, if_neg (not_le.mpr hlt)]

/-- Witness for the C1 theorem at concrete inputs: an all-agreeing
verified address yields status `valid`. -/
theorem determineStatus_status_table_witness :
    (determineStatus pFull vFull).status = VALIDATION_STATUS_VALID :=
  (determineStatus_status_table pFull vFull).1 (by decide)

/-- C8: whenever the verified address is present, the response's address
record takes streetNumber, street, city, state and zipCode entirely from
the verified fields, takes unit from the parsed unit, and the
coordinates and confidence are populated from the verified address. -/
theorem createResponse_verified_fields (st : String) (p : ParsedAddress)
    (v : VerifiedAddress) (iss : List String) (cor : List Correction)
    (hu : p.unit ≠ some "") :
    (createResponse st (some p) (some v) iss cor).address =
      some ⟨v.streetNumber, v.street, p.unit, v.city, v.state, v.zipCode,
        formatAddress v p.unit⟩ ∧
    (createResponse st (some p) (some v) iss cor).coordinates =
      some ⟨v.latitude, v.longitude⟩ ∧
    (createResponse st (some p) (some v) iss cor).confidence =
      some v.confidence := by
  have hunit : (if jsTruthyS p.unit then p.unit else none) = p.unit := by
    cases hp : p.unit with
    | none => simp [jsTruthyS]
    | some u =>
      have : u ≠ "" := fun e => hu (by rw [hp, e])
      simp [jsTruthyS, this]
  refine ⟨?_, rfl, rfl⟩
  have hstep : (createResponse st (some p) (some v) iss cor).address =
      some ⟨v.streetNumber, v.street,
        (if jsTruthyS p.unit then p.unit else none), v.city, v.state,
        v.zipCode, formatAddress v p.unit⟩ := rfl
  rw [hstep, hunit]

/-- Witness for the C8 theorem at concrete inputs. -/
theorem createResponse_verified_fields_witness :
    (createResponse VALIDATION_STATUS_VALID (some pFull) (some vFull) [] []).address =
      some ⟨vFull.streetNumber, vFull.street, pFull.unit, vFull.city,
        vFull.state, vFull.zipCode, formatAddress vFull pFull.unit⟩ ∧
    (createResponse VALIDATION_STATUS_VALID (some pFull) (some vFull) [] []).coordinates =
      some ⟨vFull.latitude, vFull.longitude⟩ ∧
    (createResponse VALIDATION_STATUS_VALID (some pFull) (some vFull) [] []).confidence =
      some vFull.confidence :=
  createResponse_verified_fields VALIDATION_STATUS_VALID pFull vFull [] []
    (by decide)

/-- C9: whenever the verified address is absent and the status is
`unverifiable`, the response's address record is built from the parsed
fields with a null formatted string, and the coordinates and confidence
keys are omitted. -/
theorem createResponse_unverifiable_fields (p : ParsedAddress)
    (iss : List String) (cor : List Correction) :
    (createResponse VALIDATION_STATUS_UNVERIFIABLE (some p) none iss cor).address =
      some ⟨p.streetNumber, p.street, p.unit, p.city, p.state, p.zipCode,
        none⟩ ∧
    (createResponse VALIDATION_STATUS_UNVERIFIABLE (some p) none iss cor).coordinates =
      none ∧
    (createResponse VALIDATION_STATUS_UNVERIFIABLE (some p) none iss cor).confidence =
      none := by
  refine ⟨?_, ?_, ?_⟩ <;> simp [createResponse]

/-- A list published under the conditional-some idiom of `createResponse`
is non-empty. -/
theorem opt_nonempty_list {α : Type} {xs l : List α}
    (h : (if xs.length > 0 then some xs else none) = some l) : l ≠ [] := by
  intro hl
  subst hl
  split_ifs at h with h0
  cases h; simp at h0

/-- `determineStatus` only answers `valid` on an empty corrections list. -/
theorem determineStatus_valid_corrections (p : ParsedAddress)
    (v : VerifiedAddress)
    (h : (determineStatus p v).status = VALIDATION_STATUS_VALID) :
    (determineStatus p v).corrections = [] := by
  have hs : (determineStatus p v).status =
      (if determineCorrections p v = [] then VALIDATION_STATUS_VALID
       else if 70 ≤ v.confidence then VALIDATION_STATUS_CORRECTED
       else VALIDATION_STATUS_UNVERIFIABLE) := rfl
  rw [hs] at h
  have hc : (determineStatus p v).corrections = determineCorrections p v := rfl
  rw [hc]
  by_cases h0 : determineCorrections p v = []
  · exact h0
  · rw [if_neg h0] at h
    by_cases h70 : 70 ≤ v.confidence
    · rw [if_pos h70] at h; exact absurd h (by decide)
    · rw [if_neg h70] at h; exact absurd h (by decide)

/-- `determineStatus` never answers `invalid`. -/
theorem determineStatus_ne_invalid (p : ParsedAddress) (v : VerifiedAddress) :
    (determineStatus p v).status ≠ VALIDATION_STATUS_INVALID := by
  have hs : (determineStatus p v).status =
      (if determineCorrections p v = [] then VALIDATION_STATUS_VALID
       else if 70 ≤ v.confidence then VALIDATION_STATUS_CORRECTED
       else VALIDATION_STATUS_UNVERIFIABLE) := rfl
  rw [hs]; split_ifs <;> decide

/-- C10: in every result of `validateAddress` the issues key is present
only with a non-empty list, the corrections key is present only with a
non-empty list, and a `valid` result carries neither key. -/
theorem validateAddress_keys_iff (input : Option String)
    (geo structured : Option VerifiedAddress) :
    (∀ l, (validateAddress input geo structured).issues = some l → l ≠ []) ∧
    (∀ l, (validateAddress input geo structured).corrections = some l →
        l ≠ []) ∧
    ((validateAddress input geo structured).status = VALIDATION_STATUS_VALID →
      (validateAddress input geo structured).issues = none ∧
      (validateAddress input geo structured).corrections = none) := by
  rcases hp : parseAddress input with _ | p
  · simp only [validateAddress, hp]
    refine ⟨fun l hl => ?_, fun l hl => ?_, fun hval => ?_⟩
    · rw [createResponse_issues_eq] at hl; exact opt_nonempty_list hl
    · rw [createResponse_corrections_eq] at hl; simp at hl
    · rw [createResponse_status_eq] at hval; exact absurd hval (by decide)
  · rcases hv : selectVerified p geo structured with _ | fr
    · simp only [validateAddress, hp, hv]
      unfold handleUnverifiableAddress
      refine ⟨fun l hl => ?_, fun l hl => ?_, fun hval => ?_⟩
      · rw [createResponse_issues_eq] at hl; exact opt_nonempty_list hl
      · rw [createResponse_corrections_eq] at hl; simp at hl
      · rw [createResponse_status_eq] at hval
        split_ifs at hval <;> exact absurd hval (by decide)
    · by_cases hc : fr.country ≠ "" ∧ fr.country ≠ "US"
      · simp only [validateAddress, hp, hv, if_pos hc]
        refine ⟨fun l hl => ?_, fun l hl => ?_, fun hval => ?_⟩
        · rw [createResponse_issues_eq] at hl; exact opt_nonempty_list hl
        · rw [createResponse_corrections_eq] at hl; simp at hl
        · rw [createResponse_status_eq] at hval; exact absurd hval (by decide)
      · simp only [validateAddress, hp, hv, if_neg hc]
        refine ⟨fun l hl => ?_, fun l hl => ?_, fun hval => ?_⟩
        · rw [createResponse_issues_eq] at hl; simp at hl
        · rw [createResponse_corrections_eq] at hl; exact opt_nonempty_list hl
        · rw [createResponse_status_eq] at hval
          have hcor := determineStatus_valid_corrections p fr hval
          constructor
          · rw [createResponse_issues_eq]; simp
          · rw [createResponse_corrections_eq, hcor]; simp

/-- Witness for the C10 theorem: a concrete `valid` result carries
neither an issues nor a corrections key. -/
theorem validateAddress_keys_iff_witness :
    (validateAddress (some ",") (some vUSEmpty) none).issues = none ∧
    (validateAddress (some ",") (some vUSEmpty) none).corrections = none :=
  (validateAddress_keys_iff (some ",") (some vUSEmpty) none).2.2 (by decide)

/-- C2 counterexample: for the input "," parsing succeeds with neither
street nor city, yet with a US verified result carrying no comparable
fields `validateAddress` answers `valid` — so "neither street nor city
could be parsed" does not by itself force status `invalid`. -/
theorem validateAddress_invalid_counterexample :
    (parseAddress (some ",")).map (fun p => (p.street, p.city)) =
      some (none, none) ∧
    (validateAddress (some ",") (some vUSEmpty) none).status =
      VALIDATION_STATUS_VALID ∧
    VALIDATION_STATUS_VALID ≠ VALIDATION_STATUS_INVALID := by decide


/-- The status of `handleUnverifiableAddress`: `unverifiable` with a
street or city, `invalid` otherwise. -/
theorem handleUnverifiable_status (p : ParsedAddress) :
    (handleUnverifiableAddress p).status =
      (if hasMinimumComponents p then VALIDATION_STATUS_UNVERIFIABLE
       else VALIDATION_STATUS_INVALID) := by
  unfold handleUnverifiableAddress
  rw [createResponse_status_eq]
  rfl

/-- C2 (amended): when every verified result carries a non-empty country
(as `normalizeNominatimResult` guarantees), `validateAddress` answers
`invalid` exactly when parsing failed, or no verified result is available
and neither street nor city was parsed, or the verified result's country
is not "US"; and in the non-US case the result carries the single
explanatory issue message. -/
theorem validateAddress_invalid_iff (input : Option String)
    (geo structured : Option VerifiedAddress)
    (hg : ∀ v, geo = some v → v.country ≠ "")
    (hs : ∀ v, structured = some v → v.country ≠ "") :
    ((validateAddress input geo structured).status = VALIDATION_STATUS_INVALID
      ↔ parseAddress input = none ∨
        (∃ p, parseAddress input = some p ∧
          selectVerified p geo structured = none ∧
          hasMinimumComponents p = false) ∨
        (∃ p v, parseAddress input = some p ∧
          selectVerified p geo structured = some v ∧ v.country ≠ "US")) ∧
    (∀ p v, parseAddress input = some p →
      selectVerified p geo structured = some v → v.country ≠ "US" →
      (validateAddress input geo structured).issues =
        some ["Address is not in the United States. This service only validates US addresses."]) := by
  have hsel : ∀ p v, selectVerified p geo structured = some v →
      v.country ≠ "" := by
    intro p v hv
    unfold selectVerified at hv
    cases hgeo : geo with
    | some g => rw [hgeo] at hv; cases hv; exact hg _ hgeo
    | none =>
      rw [hgeo] at hv
      by_cases hmin : hasMinimumComponents p
      · rw [if_pos hmin] at hv; exact hs _ hv
      · rw [if_neg hmin] at hv; exact Option.noConfusion hv
  rcases hp : parseAddress input with _ | p
  · simp only [validateAddress, hp]
    refine ⟨?_, ?_⟩
    · rw [createResponse_status_eq]; simp
    · intro p v hpv; exact Option.noConfusion hpv
  · rcases hv : selectVerified p geo structured with _ | fr
    · simp only [validateAddress, hp, hv]
      refine ⟨?_, ?_⟩
      · rw [handleUnverifiable_status]
        cases hb : hasMinimumComponents p with
        | true =>
          rw [if_pos rfl]
          refine ⟨fun habs => absurd habs (by decide), ?_⟩
          rintro (h1 | ⟨p', h1, h2, h3⟩ | ⟨p', v', h1, h2, h3⟩)
          · exact Option.noConfusion h1
          · cases h1; rw [hb] at h3; exact Bool.noConfusion h3
          · cases h1; rw [hv] at h2; exact Option.noConfusion h2
        | false =>
          rw [if_neg (by decide)]
          exact ⟨fun _ => Or.inr (Or.inl ⟨p, rfl, hv, hb⟩), fun _ => rfl⟩
      · intro p' v' h1 h2 h3
        cases h1; rw [hv] at h2; exact Option.noConfusion h2
    · have hcz : fr.country ≠ "" := hsel p fr hv
      by_cases hus : fr.country = "US"
      · have hcond : ¬ (fr.country ≠ "" ∧ fr.country ≠ "US") :=
          fun hcon => hcon.2 hus
        simp only [validateAddress, hp, hv, if_neg hcond]
        refine ⟨?_, ?_⟩
        · refine ⟨fun habs => absurd habs (determineStatus_ne_invalid p fr), ?_⟩
          rintro (h1 | ⟨p', h1, h2, h3⟩ | ⟨p', v', h1, h2, h3⟩)
          · exact Option.noConfusion h1
          · cases h1; rw [hv] at h2; exact Option.noConfusion h2
          · cases h1; rw [hv] at h2; cases h2; exact absurd hus h3
        · intro p' v' h1 h2 h3
          cases h1; rw [hv] at h2; cases h2; exact absurd hus h3
      · have hcond : fr.country ≠ "" ∧ fr.country ≠ "US" := ⟨hcz, hus⟩
        simp only [validateAddress, hp, hv, if_pos hcond]
        refine ⟨?_, ?_⟩
        · rw [createResponse_status_eq]
          exact ⟨fun _ => Or.inr (Or.inr ⟨p, fr, rfl, hv, hus⟩), fun _ => rfl⟩
        · intro p' v' h1 h2 h3
          rw [createResponse_issues_eq]; simp

/-- Witness for the C2 theorem: a failed parse yields status `invalid`. -/
theorem validateAddress_invalid_iff_witness :
    (validateAddress none none none).status = VALIDATION_STATUS_INVALID :=
  (validateAddress_invalid_iff none none none
      (fun _ h => Option.noConfusion h)
      (fun _ h => Option.noConfusion h)).1.mpr (Or.inl rfl)

/-- C3 counterexample: the whitespace-only input " " is empty after
trimming, yet `parseAddress` returns a non-null record (the guard tests
JS truthiness of the untrimmed string), with every component null and
`raw` preserving the input. -/
theorem parseAddress_whitespace_counterexample :
    jsTrim (String.data " ") = [] ∧
    parseAddress (some " ") =
      some ⟨none, none, none, none, none, none, " "⟩ := by decide

/-- C3 (amended): `parseAddress` returns null exactly when the input is
not a string (null/undefined/non-string, modelled as `none`) or is the
empty string; every other input — whitespace-only inputs included —
yields a record whose `raw` is the original input. -/
theorem parseAddress_none_iff (x : Option String) :
    (parseAddress x = none ↔ x = none ∨ x = some "") ∧
    (∀ s q, x = some s → parseAddress x = some q → q.raw = s) := by
  cases x with
  | none => exact ⟨by simp [parseAddress], fun s q h => Option.noConfusion h⟩
  | some s =>
    refine ⟨?_, ?_⟩
    · by_cases h : s = ""
      · subst h; simp [parseAddress]
      · simp [parseAddress, h]
    · intro s' q hs hq
      cases hs
      simp only [parseAddress] at hq
      by_cases h : s = ""
      · rw [if_pos h] at hq; exact Option.noConfusion hq
      · rw [if_neg h] at hq
        cases hq
        rfl

/-- Witness for the C3 theorem: the empty string is rejected. -/
theorem parseAddress_none_iff_witness : parseAddress (some "") = none :=
  (parseAddress_none_iff (some "")).1.mpr (Or.inr rfl)

/-- One field segment of the corrections list: the truthiness-guarded
comparison of the source equals the absence-guarded comparison of the
specification whenever the verified value is not the empty string. -/
theorem correction_segment_eq (g : Option String) (hg : g ≠ some "")
    (P : Option String → Prop) [DecidablePred P] (mk : String → Correction) :
    (if jsTruthyS g ∧ P g then [mk (g.getD "")] else []) =
      skipNone g (fun s => if P (some s) then [mk s] else []) := by
  cases g with
  | none => simp [jsTruthyS, skipNone]
  | some s =>
    have hne : s ≠ "" := fun e => hg (by rw [e])
    by_cases hp : P (some s) <;> simp [jsTruthyS, hne, hp, skipNone]

/-- C4: for a verified address as the geocoder produces it (no empty
strings), the corrections list of `determineStatus` is exactly the list
described by the specification: ordered streetNumber, street, city,
state, zipCode, one correction per field differing under the per-field
rule, a field skipped whenever the verified value is absent. -/
theorem determineStatus_corrections_spec (p : ParsedAddress)
    (v : VerifiedAddress) (h : v.wf) :
    (determineStatus p v).corrections = correctionsSpec p v := by
  obtain ⟨h1, h2, h3, h4, h5, _⟩ := h
  show determineCorrections p v = correctionsSpec p v
  unfold determineCorrections correctionsSpec
  rw [correction_segment_eq v.streetNumber h1
        (fun g => p.streetNumber ≠ g)
        (fun s => ⟨"streetNumber", p.streetNumber, s⟩),
      correction_segment_eq v.street h2
        (fun g => normalizeForComparison p.street ≠ normalizeForComparison g)
        (fun s => ⟨"street", p.street, s⟩),
      correction_segment_eq v.city h3
        (fun g => normalizeForComparison p.city ≠ normalizeForComparison g)
        (fun s => ⟨"city", p.city, s⟩),
      correction_segment_eq v.state h4
        (fun g => optUpper p.state ≠ optUpper g)
        (fun s => ⟨"state", p.state, s⟩),
      correction_segment_eq v.zipCode h5
        (fun g => normalizeZip p.zipCode ≠ normalizeZip g)
        (fun s => ⟨"zipCode", p.zipCode, s⟩)]

/-- Witness for the C4 theorem at concrete inputs: one differing street
produces exactly the street correction. -/
theorem determineStatus_corrections_spec_witness :
    (determineStatus pNull vFull).corrections = correctionsSpec pNull vFull :=
  determineStatus_corrections_spec pNull vFull (by decide)

set_option maxRecDepth 100000 in
/-- C5: the code evaluated at the failing input ", ZZ" — the normalized
input contains the standalone unrecognized 2-letter token "ZZ", yet
`parseAddress` leaves `state` null instead of populating it, so the
service's "Invalid state:" issue branch can never fire. -/
theorem parseAddress_unrecognized_state_token :
    findTwoTok false (String.data ", ZZ") = some ['Z', 'Z'] ∧
    lookupTab US_STATES "ZZ" = none ∧
    parseAddress (some ", ZZ") =
      some ⟨none, none, none, some "Zz", none, none, ", ZZ"⟩ := by decide

set_option maxRecDepth 100000 in
/-- C6 counterexample: in "ab ca" the first recognized standalone
2-letter state code is "ca", but extraction returns nothing, because only
the first 2-letter token ("ab", unrecognized) is ever tested — while "ca"
alone is extracted fine. -/
theorem extractState_counterexample :
    extractState "ab ca" = none ∧
    extractState "ca" = some ("CA", "California") := by decide

/-- C6 (amended): state extraction inspects only the first standalone
2-letter token of the input: if that token is a recognized state code
(case-insensitively) its uppercase form is returned; in every other case
— the first token unrecognized (even if a later token is a recognized
code), or no 2-letter token at all — it falls back to the first
case-insensitive occurrence of a full state name in table order. -/
theorem extractState_first_token (s : String) :
    (∀ t nm, findTwoTok false s.data = some t →
      lookupTab US_STATES (strOf (upperStr t)) = some nm →
      extractState s = some (strOf (upperStr t), nm)) ∧
    (∀ t, findTwoTok false s.data = some t →
      lookupTab US_STATES (strOf (upperStr t)) = none →
      extractState s = extractStateByName s) ∧
    (findTwoTok false s.data = none →
      extractState s = extractStateByName s) := by
  refine ⟨?_, ?_, ?_⟩
  · intro t nm ht hl; unfold extractState; rw [ht]; simp only [hl]
  · intro t ht hl; unfold extractState; rw [ht]; simp only [hl]
  · intro ht; unfold extractState; rw [ht]

set_option maxRecDepth 100000 in
/-- Witness for the C6 theorem: "Boston, MA" has first 2-letter token
"MA", a recognized code, and extraction returns it. -/
theorem extractState_first_token_witness :
    extractState "Boston, MA" = some ("MA", "Massachusetts") := by
  rw [(extractState_first_token "Boston, MA").1 ['M', 'A'] "Massachusetts"
        (by decide) (by decide)]
  decide

/-- C7 counterexample: a whitespace-only street name is truthy, trims to
nothing and normalizes to the empty string, which the next application
rejects as falsy — so one extra application changes the result. -/
theorem normalizeStreetName_not_idem :
    normalizeStreetName (some " ") = some "" ∧
    normalizeStreetName (normalizeStreetName (some " ")) = none := by decide

/-- Membership behind a successful character-table lookup. -/
theorem charLookup_mem {t : List (Char × Char)} {c v : Char}
    (h : charLookup t c = some v) : (c, v) ∈ t := by
  induction t with
  | nil => exact Option.noConfusion h
  | cons p rest ih =>
    obtain ⟨k, w⟩ := p
    simp only [charLookup] at h
    by_cases hc : c = k
    · rw [if_pos hc] at h
      cases h
      subst hc
      exact List.mem_cons_self _ _
    · rw [if_neg hc] at h
      exact List.mem_cons_of_mem _ (ih h)

/-- No lowercase-table value is itself a key of the lowercase table. -/
theorem lowerMap_vals_not_keys :
    ∀ p ∈ lowerMap, charLookup lowerMap p.2 = none := by decide

/-- No uppercase-table value is itself a key of the uppercase table. -/
theorem upperMap_vals_not_keys :
    ∀ p ∈ upperMap, charLookup upperMap p.2 = none := by decide

/-- Uppercasing a lowercase letter and lowercasing the result restores
it; a lowercase letter is not a lowercase-table key. -/
theorem upperMap_lower_facts :
    ∀ p ∈ upperMap,
      charLookup lowerMap p.2 = some p.1 ∧ charLookup lowerMap p.1 = none := by
  decide

/-- Lowercase-table values are never whitespace. -/
theorem lowerMap_vals_not_ws : ∀ p ∈ lowerMap, isWsChar p.2 = false := by
  decide

/-- Uppercase-table values are never whitespace. -/
theorem upperMap_vals_not_ws : ∀ p ∈ upperMap, isWsChar p.2 = false := by
  decide

/-- Lowercasing is idempotent on characters. -/
theorem jsToLower_jsToLower (c : Char) :
    jsToLower (jsToLower c) = jsToLower c := by
  unfold jsToLower
  cases hl : charLookup lowerMap c with
  | none => simp [hl]
  | some v =>
    have hnone : charLookup lowerMap v = none :=
      lowerMap_vals_not_keys _ (charLookup_mem hl)
    simp [hl, hnone]

/-- Lowercasing after uppercasing agrees with lowercasing. -/
theorem jsToLower_jsToUpper (c : Char) :
    jsToLower (jsToUpper c) = jsToLower c := by
  unfold jsToUpper
  cases hu : charLookup upperMap c with
  | none => simp
  | some v =>
    obtain ⟨h1, h2⟩ := upperMap_lower_facts _ (charLookup_mem hu)
    simp only [Option.getD_some]
    unfold jsToLower
    rw [h1, h2]
    rfl

/-- Uppercasing is idempotent on characters. -/
theorem jsToUpper_jsToUpper (c : Char) :
    jsToUpper (jsToUpper c) = jsToUpper c := by
  unfold jsToUpper
  cases hu : charLookup upperMap c with
  | none => simp [hu]
  | some v =>
    have hnone : charLookup upperMap v = none :=
      upperMap_vals_not_keys _ (charLookup_mem hu)
    simp [hu, hnone]

/-- Lowercasing preserves non-whitespace. -/
theorem isWs_jsToLower (c : Char) (h : isWsChar c = false) :
    isWsChar (jsToLower c) = false := by
  unfold jsToLower
  cases hl : charLookup lowerMap c with
  | none => simpa using h
  | some v =>
    have := lowerMap_vals_not_ws _ (charLookup_mem hl)
    simpa using this

/-- Uppercasing preserves non-whitespace. -/
theorem isWs_jsToUpper (c : Char) (h : isWsChar c = false) :
    isWsChar (jsToUpper c) = false := by
  unfold jsToUpper
  cases hu : charLookup upperMap c with
  | none => simpa using h
  | some v =>
    have := upperMap_vals_not_ws _ (charLookup_mem hu)
    simpa using this

/-- Lowercasing composed with itself is lowercasing. -/
theorem jsToLower_comp : jsToLower ∘ jsToLower = jsToLower :=
  funext fun a => jsToLower_jsToLower a

/-- Lowercasing ignores a preceding title-casing. -/
theorem lowerStr_titleCase (w : List Char) :
    lowerStr (titleCaseL w) = lowerStr w := by
  cases w with
  | nil => rfl
  | cons c cs =>
    simp only [titleCaseL, lowerStr, List.map_cons, List.map_map,
      jsToLower_comp]
    rw [jsToLower_jsToUpper]

/-- Title-casing is idempotent. -/
theorem titleCase_titleCase (w : List Char) :
    titleCaseL (titleCaseL w) = titleCaseL w := by
  cases w with
  | nil => rfl
  | cons c cs =>
    simp only [titleCaseL, List.map_map, jsToLower_comp]
    rw [jsToUpper_jsToUpper]

/-- Membership behind a successful reference-table lookup. -/
theorem lookupTab_mem {t : List (String × String)} {k v : String}
    (h : lookupTab t k = some v) : (k, v) ∈ t := by
  induction t with
  | nil => exact Option.noConfusion h
  | cons p rest ih =>
    obtain ⟨k', w⟩ := p
    simp only [lookupTab] at h
    by_cases hc : k = k'
    · rw [if_pos hc] at h
      cases h
      subst hc
      exact List.mem_cons_self _ _
    · rw [if_neg hc] at h
      exact List.mem_cons_of_mem _ (ih h)

set_option maxRecDepth 100000 in
/-- Every expansion in the `DIRECTIONS` table is stable under another
pass of `normalizeStreetName`'s token rule: its lookup key matches no
table, it is already title-cased, and it is a non-empty whitespace-free
word. -/
theorem dir_vals_stable :
    ∀ p ∈ DIRECTIONS,
      lookupTab DIRECTIONS (strOf (stripTrailingDot (lowerStr (p.2).data))) =
        none ∧
      lookupTab STREET_TYPES (strOf (stripTrailingDot (lowerStr (p.2).data))) =
        none ∧
      titleCaseL (p.2).data = (p.2).data ∧
      (p.2).data ≠ [] ∧ ∀ c ∈ (p.2).data, isWsChar c = false := by decide

set_option maxRecDepth 100000 in
/-- Every expansion in the `STREET_TYPES` table is stable under another
pass of `normalizeStreetName`'s token rule. -/
theorem street_vals_stable :
    ∀ p ∈ STREET_TYPES,
      lookupTab DIRECTIONS (strOf (stripTrailingDot (lowerStr (p.2).data))) =
        none ∧
      lookupTab STREET_TYPES (strOf (stripTrailingDot (lowerStr (p.2).data))) =
        none ∧
      titleCaseL (p.2).data = (p.2).data ∧
      (p.2).data ≠ [] ∧ ∀ c ∈ (p.2).data, isWsChar c = false := by decide

/-- `normToken` under a successful directional lookup. -/
theorem normToken_eq_of_dir (n i : Nat) (w : List Char)
    (h : (i = 0 ∨ i = n - 1) ∧
      (lookupTab DIRECTIONS (strOf (stripTrailingDot (lowerStr w)))).isSome) :
    normToken n i w =
      ((lookupTab DIRECTIONS
        (strOf (stripTrailingDot (lowerStr w)))).getD "").data := by
  unfold normToken
  rw [if_pos h]

/-- `normToken` under a successful street-type lookup. -/
theorem normToken_eq_of_street (n i : Nat) (w : List Char)
    (hnd : ¬ ((i = 0 ∨ i = n - 1) ∧
      (lookupTab DIRECTIONS (strOf (stripTrailingDot (lowerStr w)))).isSome))
    (h : (i = n - 1 ∨ i = n - 2) ∧
      (lookupTab STREET_TYPES
        (strOf (stripTrailingDot (lowerStr w)))).isSome) :
    normToken n i w =
      ((lookupTab STREET_TYPES
        (strOf (stripTrailingDot (lowerStr w)))).getD "").data := by
  unfold normToken
  rw [if_neg hnd, if_pos h]

/-- `normToken` when both lookups fail: plain title-casing. -/
theorem normToken_eq_title (n i : Nat) (w : List Char)
    (hnd : ¬ ((i = 0 ∨ i = n - 1) ∧
      (lookupTab DIRECTIONS (strOf (stripTrailingDot (lowerStr w)))).isSome))
    (hns : ¬ ((i = n - 1 ∨ i = n - 2) ∧
      (lookupTab STREET_TYPES
        (strOf (stripTrailingDot (lowerStr w)))).isSome)) :
    normToken n i w = titleCaseL w := by
  unfold normToken
  rw [if_neg hnd, if_neg hns]

/-- A second application of the word rule of `normalizeStreetName` at the
same position leaves a word unchanged. -/
theorem normToken_stable (n i : Nat) (w : List Char) :
    normToken n i (normToken n i w) = normToken n i w := by
  by_cases hD : (i = 0 ∨ i = n - 1) ∧
      (lookupTab DIRECTIONS (strOf (stripTrailingDot (lowerStr w)))).isSome
  · rw [normToken_eq_of_dir n i w hD]
    cases hlk : lookupTab DIRECTIONS (strOf (stripTrailingDot (lowerStr w))) with
    | none => rw [hlk] at hD; exact absurd hD.2 (by simp)
    | some v =>
      simp only [Option.getD_some]
      obtain ⟨hd1, hd2, hd3, _, _⟩ := dir_vals_stable _ (lookupTab_mem hlk)
      rw [normToken_eq_title n i (v.data)
        (fun hcon => by rw [hd1] at hcon; exact absurd hcon.2 (by simp))
        (fun hcon => by rw [hd2] at hcon; exact absurd hcon.2 (by simp))]
      exact hd3
  · by_cases hS : (i = n - 1 ∨ i = n - 2) ∧
        (lookupTab STREET_TYPES
          (strOf (stripTrailingDot (lowerStr w)))).isSome
    · rw [normToken_eq_of_street n i w hD hS]
      cases hlk : lookupTab STREET_TYPES
          (strOf (stripTrailingDot (lowerStr w))) with
      | none => rw [hlk] at hS; exact absurd hS.2 (by simp)
      | some v =>
        simp only [Option.getD_some]
        obtain ⟨hs1, hs2, hs3, _, _⟩ := street_vals_stable _ (lookupTab_mem hlk)
        rw [normToken_eq_title n i (v.data)
          (fun hcon => by rw [hs1] at hcon; exact absurd hcon.2 (by simp))
          (fun hcon => by rw [hs2] at hcon; exact absurd hcon.2 (by simp))]
        exact hs3
    · rw [normToken_eq_title n i w hD hS]
      have hkey : strOf (stripTrailingDot (lowerStr (titleCaseL w))) =
          strOf (stripTrailingDot (lowerStr w)) := by rw [lowerStr_titleCase]
      rw [normToken_eq_title n i (titleCaseL w)
        (fun hcon => hD (by rwa [hkey] at hcon))
        (fun hcon => hS (by rwa [hkey] at hcon))]
      exact titleCase_titleCase w

/-- The word rule keeps tokens non-empty and whitespace-free. -/
theorem normToken_good (n i : Nat) (w : List Char) (h1 : w ≠ [])
    (h2 : ∀ c ∈ w, isWsChar c = false) :
    normToken n i w ≠ [] ∧ ∀ c ∈ normToken n i w, isWsChar c = false := by
  by_cases hD : (i = 0 ∨ i = n - 1) ∧
      (lookupTab DIRECTIONS (strOf (stripTrailingDot (lowerStr w)))).isSome
  · rw [normToken_eq_of_dir n i w hD]
    cases hlk : lookupTab DIRECTIONS (strOf (stripTrailingDot (lowerStr w))) with
    | none => rw [hlk] at hD; exact absurd hD.2 (by simp)
    | some v =>
      simp only [Option.getD_some]
      obtain ⟨_, _, _, hd4, hd5⟩ := dir_vals_stable _ (lookupTab_mem hlk)
      exact ⟨hd4, hd5⟩
  · by_cases hS : (i = n - 1 ∨ i = n - 2) ∧
        (lookupTab STREET_TYPES
          (strOf (stripTrailingDot (lowerStr w)))).isSome
    · rw [normToken_eq_of_street n i w hD hS]
      cases hlk : lookupTab STREET_TYPES
          (strOf (stripTrailingDot (lowerStr w))) with
      | none => rw [hlk] at hS; exact absurd hS.2 (by simp)
      | some v =>
        simp only [Option.getD_some]
        obtain ⟨_, _, _, hs4, hs5⟩ := street_vals_stable _ (lookupTab_mem hlk)
        exact ⟨hs4, hs5⟩
    · rw [normToken_eq_title n i w hD hS]
      cases w with
      | nil => exact absurd rfl h1
      | cons c cs =>
        refine ⟨by simp [titleCaseL], ?_⟩
        intro d hd
        simp only [titleCaseL, List.mem_cons] at hd
        rcases hd with hd | hd
        · subst hd
          exact isWs_jsToUpper c (h2 c (List.mem_cons_self _ _))
        · obtain ⟨a, ha, rfl⟩ := List.mem_map.mp hd
          exact isWs_jsToLower a (h2 a (List.mem_cons_of_mem _ ha))

/-- Word-by-word normalization preserves the word count. -/
theorem normWords_length (n : Nat) :
    ∀ (l : List (List Char)) (i : Nat), (normWords n i l).length = l.length := by
  intro l
  induction l with
  | nil => intro i; rfl
  | cons w ws ih => intro i; simp only [normWords, List.length_cons, ih]

/-- Word-by-word normalization keeps every word non-empty and
whitespace-free. -/
theorem normWords_good (n : Nat) :
    ∀ (l : List (List Char)) (i : Nat),
      (∀ t ∈ l, t ≠ [] ∧ ∀ c ∈ t, isWsChar c = false) →
      ∀ t ∈ normWords n i l, t ≠ [] ∧ ∀ c ∈ t, isWsChar c = false := by
  intro l
  induction l with
  | nil => intro i _ t ht; simp [normWords] at ht
  | cons w ws ih =>
    intro i hl t ht
    simp only [normWords, List.mem_cons] at ht
    rcases ht with he | he
    · subst he
      exact normToken_good n i w (hl w (List.mem_cons_self _ _)).1
        (hl w (List.mem_cons_self _ _)).2
    · exact ih (i + 1) (fun t' ht' => hl t' (List.mem_cons_of_mem _ ht')) t he

/-- Word-by-word normalization is idempotent. -/
theorem normWords_stable (n : Nat) :
    ∀ (l : List (List Char)) (i : Nat),
      normWords n i (normWords n i l) = normWords n i l := by
  intro l
  induction l with
  | nil => intro i; rfl
  | cons w ws ih =>
    intro i
    simp only [normWords]
    rw [normToken_stable, ih (i + 1)]

/-- Scanning a whitespace-free word extends the current token. -/
theorem rawTokensAux_append_word :
    ∀ (w cur cs : List Char), (∀ c ∈ w, isWsChar c = false) →
      rawTokensAux cur (w ++ cs) = rawTokensAux (w.reverse ++ cur) cs := by
  intro w
  induction w with
  | nil => intro cur cs _; rfl
  | cons c w' ih =>
    intro cur cs hw
    have hc : isWsChar c = false := hw c (List.mem_cons_self _ _)
    simp only [List.cons_append, rawTokensAux, hc, Bool.false_eq_true,
      if_false]
    show rawTokensAux (c :: cur) (w' ++ cs) =
      rawTokensAux ((c :: w').reverse ++ cur) cs
    rw [ih (c :: cur) cs (fun d hd => hw d (List.mem_cons_of_mem _ hd))]
    congr 1
    simp [List.reverse_cons, List.append_assoc]

/-- Every token the scanner emits is non-empty and whitespace-free. -/
theorem rawTokensAux_good :
    ∀ (l cur : List Char), (∀ c ∈ cur, isWsChar c = false) →
      ∀ t ∈ rawTokensAux cur l, t ≠ [] ∧ ∀ c ∈ t, isWsChar c = false := by
  intro l
  induction l with
  | nil =>
    intro cur hcur t ht
    simp only [rawTokensAux] at ht
    split_ifs at ht with h0
    · simp at ht
    · rcases List.mem_singleton.mp ht with rfl
      refine ⟨by simpa using h0, ?_⟩
      intro c hc
      exact hcur c (List.mem_reverse.mp hc)
  | cons c cs ih =>
    intro cur hcur t ht
    simp only [rawTokensAux] at ht
    split_ifs at ht with h1 h2
    · exact ih [] (by simp) t ht
    · rcases List.mem_cons.mp ht with he | he
      · subst he
        refine ⟨by simpa using h2, ?_⟩
        intro d hd
        exact hcur d (List.mem_reverse.mp hd)
      · exact ih [] (by simp) t he
    · refine ih (c :: cur) ?_ t ht
      intro d hd
      rcases List.mem_cons.mp hd with rfl | hd'
      · simpa using h1
      · exact hcur d hd'

/-- The scanner emits at least one token when a non-whitespace character
is in the input or a token is in progress. -/
theorem rawTokensAux_ne_nil :
    ∀ (l cur : List Char),
      ((∃ c ∈ l, isWsChar c = false) ∨ cur ≠ []) →
      rawTokensAux cur l ≠ [] := by
  intro l
  induction l with
  | nil =>
    intro cur h
    rcases h with ⟨c, hc, _⟩ | h
    · simp at hc
    · simp [rawTokensAux, h]
  | cons c cs ih =>
    intro cur h
    simp only [rawTokensAux]
    split_ifs with h1 h2
    · apply ih
      left
      rcases h with ⟨d, hd, hws⟩ | hcur
      · rcases List.mem_cons.mp hd with rfl | hd'
        · rw [h1] at hws; exact absurd hws (by simp)
        · exact ⟨d, hd', hws⟩
      · exact absurd h2 hcur
    · simp
    · apply ih
      right
      simp

/-- Unfolding `joinWsTokens` one token at a time. -/
theorem joinWs_cons (t : List Char) (ts : List (List Char)) :
    joinWsTokens (t :: ts) =
      t ++ (if ts = [] then [] else ' ' :: joinWsTokens ts) := by
  cases ts <;> simp [joinWsTokens]

/-- Joining non-empty tokens yields a non-empty list. -/
theorem joinWs_ne_nil (ts : List (List Char)) (h1 : ts ≠ [])
    (h2 : ∀ t ∈ ts, t ≠ []) : joinWsTokens ts ≠ [] := by
  cases ts with
  | nil => exact absurd rfl h1
  | cons t ts' =>
    rw [joinWs_cons]
    intro hcon
    exact h2 t (List.mem_cons_self _ _) (List.append_eq_nil.mp hcon).1

/-- The joined list starts with the first character of the first token,
which is not whitespace. -/
theorem joinWs_head_not_ws (ts : List (List Char)) (h1 : ts ≠ [])
    (h2 : ∀ t ∈ ts, t ≠ [] ∧ ∀ c ∈ t, isWsChar c = false) :
    ∀ c cs', joinWsTokens ts = c :: cs' → isWsChar c = false := by
  cases ts with
  | nil => exact absurd rfl h1
  | cons t ts' =>
    intro c cs' heq
    obtain ⟨ht1, ht2⟩ := h2 t (List.mem_cons_self _ _)
    cases t with
    | nil => exact absurd rfl ht1
    | cons a t' =>
      rw [joinWs_cons] at heq
      simp only [List.cons_append] at heq
      injection heq with h1 _
      subst h1
      exact ht2 a (List.mem_cons_self _ _)

/-- The joined list ends with the last character of the last token,
which is not whitespace. -/
theorem joinWs_rev_head :
    ∀ (ts : List (List Char)), ts ≠ [] →
      (∀ t ∈ ts, t ≠ [] ∧ ∀ c ∈ t, isWsChar c = false) →
      ∃ c r, (joinWsTokens ts).reverse = c :: r ∧ isWsChar c = false := by
  intro ts
  induction ts with
  | nil => intro h1 _; exact absurd rfl h1
  | cons t ts' ih =>
    intro _ h2
    cases ts' with
    | nil =>
      obtain ⟨ht1, ht2⟩ := h2 t (List.mem_cons_self _ _)
      cases hrev : t.reverse with
      | nil => exact absurd (by simpa using hrev) ht1
      | cons c r =>
        refine ⟨c, r, hrev, ?_⟩
        have hc : c ∈ t := List.mem_reverse.mp (by rw [hrev]; exact List.mem_cons_self _ _)
        exact ht2 c hc
    | cons t2 ts'' =>
      obtain ⟨c, r, hJ, hc⟩ :=
        ih (by simp) (fun t' ht' => h2 t' (List.mem_cons_of_mem _ ht'))
      refine ⟨c, r ++ ' ' :: t.reverse, ?_, hc⟩
      show (t ++ ' ' :: joinWsTokens (t2 :: ts'')).reverse =
        c :: (r ++ ' ' :: t.reverse)
      rw [List.reverse_append, List.reverse_cons, hJ]
      simp [List.append_assoc]

/-- The head of a `dropWhile` result fails the predicate. -/
theorem dropWhile_head_false {α : Type} {p : α → Bool} :
    ∀ {l : List α} {c : α} {cs : List α},
      l.dropWhile p = c :: cs → p c = false := by
  intro l
  induction l with
  | nil => intro c cs h; exact List.noConfusion h
  | cons a as ih =>
    intro c cs h
    rw [List.dropWhile_cons] at h
    split_ifs at h with hp
    · exact ih h
    · cases h
      simpa using hp

/-- A list with non-whitespace first and last characters is trim-stable. -/
theorem jsTrim_noop (l : List Char)
    (hhead : ∀ c cs, l = c :: cs → isWsChar c = false)
    (hlast : ∀ c cs, l.reverse = c :: cs → isWsChar c = false) :
    jsTrim l = l := by
  unfold jsTrim
  cases hl : l with
  | nil => simp
  | cons c cs =>
    have h1 : isWsChar c = false := hhead c cs hl
    have hd : List.dropWhile isWsChar (c :: cs) = c :: cs := by
      simp [List.dropWhile_cons, h1]
    rw [hd]
    cases hr : (c :: cs).reverse with
    | nil => simp at hr
    | cons d ds =>
      have h2 : isWsChar d = false := hlast d ds (by rw [hl]; exact hr)
      calc ((d :: ds).dropWhile isWsChar).reverse
          = (d :: ds).reverse := by simp [List.dropWhile_cons, h2]
        _ = c :: cs := by rw [← hr, List.reverse_reverse]

set_option maxRecDepth 100000 in
/-- The scanner splits a join of non-empty whitespace-free tokens back
into exactly those tokens. -/
theorem rawTokens_joinWs :
    ∀ (ts : List (List Char)), ts ≠ [] →
      (∀ t ∈ ts, t ≠ [] ∧ ∀ c ∈ t, isWsChar c = false) →
      rawTokens (joinWsTokens ts) = ts := by
  intro ts
  induction ts with
  | nil => intro h1 _; exact absurd rfl h1
  | cons t ts' ih =>
    intro _ hgood
    obtain ⟨ht1, ht2⟩ := hgood t (List.mem_cons_self _ _)
    have hrev : t.reverse ≠ [] := by simpa using ht1
    cases ts' with
    | nil =>
      unfold rawTokens
      calc rawTokensAux [] (joinWsTokens [t])
          = rawTokensAux [] (t ++ []) := by
            simp [joinWsTokens]
        _ = rawTokensAux (t.reverse ++ []) [] :=
            rawTokensAux_append_word t [] [] ht2
        _ = [t] := by
            simp [rawTokensAux, List.append_nil, hrev]
    | cons t2 ts'' =>
      have hws : isWsChar ' ' = true := by decide
      unfold rawTokens
      calc rawTokensAux [] (joinWsTokens (t :: t2 :: ts''))
          = rawTokensAux [] (t ++ ' ' :: joinWsTokens (t2 :: ts'')) := rfl
        _ = rawTokensAux (t.reverse ++ [])
              (' ' :: joinWsTokens (t2 :: ts'')) :=
            rawTokensAux_append_word t [] _ ht2
        _ = t.reverse.reverse :: rawTokensAux [] (joinWsTokens (t2 :: ts'')) := by
            rw [List.append_nil]
            simp [rawTokensAux, hws, hrev]
        _ = t :: (t2 :: ts'') := by
            rw [List.reverse_reverse]
            rw [show rawTokensAux [] (joinWsTokens (t2 :: ts'')) =
              rawTokens (joinWsTokens (t2 :: ts'')) from rfl]
            rw [ih (by simp)
              (fun t' ht' => hgood t' (List.mem_cons_of_mem _ ht'))]

/-- A join of non-empty whitespace-free tokens that word-normalization
leaves unchanged is a fixed point of `normalizeStreetName`. -/
theorem normalizeStreetName_fixedpoint (outs : List (List Char))
    (hgoodOuts : ∀ t ∈ outs, t ≠ [] ∧ ∀ c ∈ t, isWsChar c = false)
    (hne : outs ≠ [])
    (hstable : normWords outs.length 0 outs = outs) :
    normalizeStreetName (some (strOf (joinWsTokens outs))) =
      some (strOf (joinWsTokens outs)) := by
  have hjoinne : joinWsTokens outs ≠ [] :=
    joinWs_ne_nil outs hne (fun t ht => (hgoodOuts t ht).1)
  have hsne : strOf (joinWsTokens outs) ≠ "" := by
    intro he
    exact hjoinne (congrArg String.data he)
  have htrim : jsTrim (strOf (joinWsTokens outs)).data = joinWsTokens outs := by
    show jsTrim (joinWsTokens outs) = joinWsTokens outs
    apply jsTrim_noop
    · exact joinWs_head_not_ws outs hne hgoodOuts
    · intro c cs hc
      obtain ⟨c', r', hJ, hc'⟩ := joinWs_rev_head outs hne hgoodOuts
      rw [hJ] at hc
      injection hc with h1 _
      subst h1
      exact hc'
  simp only [normalizeStreetName]
  rw [if_neg hsne, htrim, if_neg hjoinne,
    rawTokens_joinWs outs hne hgoodOuts, hstable]

/-- C7 (amended): `normalizeStreetName` is idempotent on every input that
still has content after trimming; only whitespace-only strings (which
normalize to the empty string, which the next application maps to null)
break idempotence. -/
theorem normalizeStreetName_idem (s : String) (h : jsTrim s.data ≠ []) :
    normalizeStreetName (normalizeStreetName (some s)) =
      normalizeStreetName (some s) := by
  have hsne : s ≠ "" := by
    intro he
    apply h
    rw [he]
    decide
  have hf1 : normalizeStreetName (some s) =
      some (strOf (joinWsTokens (normWords
        (rawTokens (jsTrim s.data)).length 0
        (rawTokens (jsTrim s.data))))) := by
    simp only [normalizeStreetName]
    rw [if_neg hsne, if_neg h]
  have htsgood : ∀ t ∈ rawTokens (jsTrim s.data),
      t ≠ [] ∧ ∀ c ∈ t, isWsChar c = false :=
    rawTokensAux_good (jsTrim s.data) [] (by simp)
  have htsne : rawTokens (jsTrim s.data) ≠ [] := by
    apply rawTokensAux_ne_nil
    left
    obtain ⟨c, cs, hrev⟩ : ∃ c cs, (jsTrim s.data).reverse = c :: cs := by
      cases hx : (jsTrim s.data).reverse with
      | nil => exact absurd (by simpa using hx) h
      | cons c cs => exact ⟨c, cs, rfl⟩
    have hceq : (jsTrim s.data).reverse =
        (s.data.dropWhile isWsChar).reverse.dropWhile isWsChar := by
      unfold jsTrim
      rw [List.reverse_reverse]
    have hcne : isWsChar c = false := by
      rw [hceq] at hrev
      exact dropWhile_head_false hrev
    refine ⟨c, ?_, hcne⟩
    rw [← List.mem_reverse, hrev]
    exact List.mem_cons_self _ _
  have houtsne : normWords (rawTokens (jsTrim s.data)).length 0
      (rawTokens (jsTrim s.data)) ≠ [] := by
    intro he
    apply htsne
    have hlen := normWords_length (rawTokens (jsTrim s.data)).length
      (rawTokens (jsTrim s.data)) 0
    rw [he] at hlen
    exact List.length_eq_zero.mp hlen.symm
  rw [hf1]
  apply normalizeStreetName_fixedpoint
  · exact normWords_good _ _ 0 htsgood
  · exact houtsne
  · rw [normWords_length]
    exact normWords_stable _ _ 0

/-- Witness for the C7 theorem: "main st" (content after trimming) is
normalized once to "Main Street" and is then a fixed point. -/
theorem normalizeStreetName_idem_witness :
    normalizeStreetName (normalizeStreetName (some "main st")) =
      normalizeStreetName (some "main st") :=
  normalizeStreetName_idem "main st" (by decide)
